import Mathlib

/-!
Verification of the `onlyupou` Scrapy project: a shallow embedding of
`src/onlyupou/pipelines.py` (the `DorisStreamLoader` / `DorisPipeline`
batched-ingestion pipeline) and `src/onlyupou/middlewares.py`
(`RedisProxyMiddleware` proxy selection), together with theorems that
check the specification's claims against the code.

Conventions of the embedding:
- Python `Optional[str]` values become `Option String`; Python truthiness
  of such a value (`if database:`) is `optTruthy` (both `None` and `""`
  are falsy).
- A record (a Scrapy item turned into a dict) is modelled as an
  association list of field/value pairs; its contents never matter to the
  buffering logic.
- `DorisPipeline.buffers` (a Python dict, insertion ordered) is an
  association list from destination `(database, table)` to the buffered
  records, with pairwise-distinct keys.
- The network is external: the outcome of one `DorisStreamLoader.load`
  call is an explicit boolean input (`true` = HTTP 2xx, `false` = the
  call raised), and the sequence of `load` invocations is returned as an
  explicit event list (`LoadCall`).  Exceptions propagating out of a
  Python method are modelled by an `Option PipeError` component of the
  result, with the state component holding the mutations that happened
  before the raise.
-/

namespace Onlyupou

/-- Python truthiness of an `Optional[str]`: `None` and `""` are falsy. -/
def optTruthy : Option String → Bool
  | none => false
  | some s => s != ""

/-! ## Proxy middleware (`src/onlyupou/middlewares.py`) -/

/-- A Scrapy request, reduced to the one piece of state the middleware
touches: `request.meta["proxy"]` (`none` = key absent or `None`). -/
structure Request where
  metaProxy : Option String
deriving DecidableEq

/-- The reply of one `srandmember` query against the Redis store:
an exception, no member (`None`), a bytes member (given after decoding
with `errors="ignore"`), or a str member. -/
inductive StoreReply
  | err
  | nil
  | bytesVal (decoded : String)
  | strVal (s : String)
deriving DecidableEq

/-- `RedisProxyMiddleware` configuration reaching `process_request`.
`__init__` guarantees `self.client` is set, so the defensive
`if self.client is None` branch of `_get_proxy` is unreachable and the
client is left implicit (the `StoreReply` input stands for its answer). -/
structure RedisProxyMiddleware where
  proxyKey : String
  fallbackProxy : Option String
deriving DecidableEq

/-- `RedisProxyMiddleware._get_proxy`: an exception or a `None` reply give
`None`; a bytes reply is decoded (the decode result is the model input);
a str reply is returned as-is. -/
def getProxy (_mw : RedisProxyMiddleware) (reply : StoreReply) : Option String :=
  match reply with
  | .err => none
  | .nil => none
  | .bytesVal s => some s
  | .strVal s => some s

/-- `RedisProxyMiddleware.process_request`.  Returns the updated request
and whether the store was queried (`_get_proxy` was called).
Mirrors: early return when `request.meta.get("proxy")` is truthy; else
assign a truthy store proxy; else a truthy fallback; else leave as-is. -/
def processRequest (mw : RedisProxyMiddleware) (reply : StoreReply) (req : Request) :
    Request × Bool :=
  if optTruthy req.metaProxy then (req, false)
  else
    let proxy := getProxy mw reply
    if optTruthy proxy then ({ req with metaProxy := proxy }, true)
    else if optTruthy mw.fallbackProxy then ({ req with metaProxy := mw.fallbackProxy }, true)
    else (req, true)

/-! ## Doris pipeline (`src/onlyupou/pipelines.py`) -/

/-- One extracted record (`ItemAdapter(item).asdict()`), as a field/value
association list.  Only its identity matters to the pipeline. -/
abbrev Record := List (String × String)

/-- A `(database, table)` pair, the buffering key. -/
abbrev Destination := String × String

/-- The configuration of `DorisPipeline.__init__` that `_resolve_target`,
`process_item` and `_flush` read. -/
structure PipeConfig where
  default_database : String
  default_table : String
  batch_size : Nat
deriving DecidableEq

/-- The spider attributes `DorisPipeline._resolve_target` probes with
`getattr`: the outer `Option` is attribute presence, the inner values are
the Python `Optional[str]` attribute values.  `get_doris_target`, when
present and callable, returns either `None` (falsy) or a 2-tuple of
`Optional[str]` components (a 2-tuple is always truthy in Python). -/
structure SpiderModel where
  get_doris_target : Option (Record → Option (Option String × Option String))
  doris_database : Option (Option String)
  doris_table : Option (Option String)

/-- The exceptions the pipeline raises: `_flush`/`load` network or HTTP
failure (`urllib.error` kinds, the spec's `LoadFailure`), and the
`ValueError` of `_resolve_target` (the spec's `ConfigurationError`). -/
inductive PipeError
  | loadFailure
  | valueError
deriving DecidableEq

/-- The value `getter(item)` of the per-record override, when the spider
has a callable `get_doris_target`. -/
def overrideResult (sp : SpiderModel) (item : Record) :
    Option (Option String × Option String) :=
  match sp.get_doris_target with
  | none => none
  | some getter => getter item

/-- The optional `(database, table)` pair after the first half of
`_resolve_target`: the global defaults, replaced wholesale by a truthy
`get_doris_target(item)` result. -/
def resolvedPair (p : PipeConfig) (sp : SpiderModel) (item : Record) :
    Option String × Option String :=
  match overrideResult sp item with
  | none => (some p.default_database, some p.default_table)
  | some resolved => resolved

/-- The final guard of `_resolve_target`:
`if not database or not table: raise ValueError(...)`. -/
def resolveCheck (database table : Option String) :
    Except PipeError (String × String) :=
  if optTruthy database && optTruthy table then
    Except.ok (database.getD "", table.getD "")
  else
    Except.error PipeError.valueError

/-- `DorisPipeline._resolve_target`: start from the global defaults, let a
truthy `get_doris_target(item)` result replace the pair, then let each of
the `doris_database` / `doris_table` attributes (when present, via
`getattr` with the current value as the miss default) replace its
component, and raise `ValueError` when the final database or table is
falsy. -/
def resolveTarget (p : PipeConfig) (sp : SpiderModel) (item : Record) :
    Except PipeError (String × String) :=
  resolveCheck (sp.doris_database.getD (resolvedPair p sp item).1)
    (sp.doris_table.getD (resolvedPair p sp item).2)

/-- Whether a record resolves to destination `d` (no exception). -/
def resolvesTo (p : PipeConfig) (sp : SpiderModel) (item : Record) (d : Destination) : Bool :=
  match resolveTarget p sp item with
  | .ok d' => d' == d
  | .error _ => false

/-- `DorisPipeline.buffers`: a Python dict from destination to record
list, as an insertion-ordered association list. -/
abbrev Buffers := List (Destination × List Record)

/-- `self.buffers.setdefault(key, [])` as a read: the buffer stored for
`d`, or `[]` when absent. -/
def getBuf : Buffers → Destination → List Record
  | [], _ => []
  | (k, v) :: rest, d => if k = d then v else getBuf rest d

/-- `self.buffers.setdefault(key, []).append(record)`: append to the
existing bucket, or insert a fresh singleton bucket at the end. -/
def appendBuf : Buffers → Destination → Record → Buffers
  | [], d, r => [(d, [r])]
  | (k, v) :: rest, d, r =>
    if k = d then (k, v ++ [r]) :: rest
    else (k, v) :: appendBuf rest d r

/-- `buffer.clear()` on the bucket stored for `d` (no-op when absent). -/
def clearBuf : Buffers → Destination → Buffers
  | [], _ => []
  | (k, v) :: rest, d =>
    if k = d then (k, []) :: rest
    else (k, v) :: clearBuf rest d

/-- One `DorisStreamLoader.load(database, table, records)` invocation. -/
structure LoadCall where
  dest : Destination
  records : List Record
deriving DecidableEq

/-- `DorisPipeline._flush(database, table, buffer)` with the outcome of
the embedded `load` call given as `ok`.  Empty buffer: return at once.
Otherwise `load` is invoked; on success the buffer is cleared, on failure
the exception propagates *before* `buffer.clear()` runs, so the buffer
keeps its records. -/
def flushStep (d : Destination) (ok : Bool) (bufs : Buffers) :
    Buffers × List LoadCall × Option PipeError :=
  let buffer := getBuf bufs d
  if buffer = [] then (bufs, [], none)
  else if ok then (clearBuf bufs d, [⟨d, buffer⟩], none)
  else (bufs, [⟨d, buffer⟩], some PipeError.loadFailure)

/-- `DorisPipeline.process_item`: resolve the target (a `ValueError`
propagates with nothing buffered), append the record to its bucket, and
flush synchronously when the bucket has reached `batch_size`. -/
def processItem (p : PipeConfig) (sp : SpiderModel) (item : Record) (ok : Bool)
    (bufs : Buffers) : Buffers × List LoadCall × Option PipeError :=
  match resolveTarget p sp item with
  | .error e => (bufs, [], some e)
  | .ok d =>
    let bufs1 := appendBuf bufs d item
    if p.batch_size ≤ (getBuf bufs1 d).length then flushStep d ok bufs1
    else (bufs1, [], none)

/-- A failure-free submission run: each item goes through `process_item`
with every `load` call succeeding.  Items whose resolution raises are
dropped by the host (Scrapy logs the error and moves on), which leaves
the pipeline state untouched for them. -/
def runItems (p : PipeConfig) (sp : SpiderModel) : List Record → Buffers → Buffers × List LoadCall
  | [], bufs => (bufs, [])
  | item :: rest, bufs =>
    let step := processItem p sp item true bufs
    let next := runItems p sp rest step.1
    (next.1, step.2.1 ++ next.2)

/-- `DorisPipeline.close_spider`: iterate the buffers in insertion order
and `_flush` each non-empty one.  `oracle` gives the outcome of the
`load` call for each destination; a failure propagates out of the loop at
once, leaving the later entries untouched. -/
def closeSpider (oracle : Destination → Bool) : Buffers → Buffers × List LoadCall × Option PipeError
  | [] => ([], [], none)
  | (k, v) :: rest =>
    if v = [] then
      let next := closeSpider oracle rest
      ((k, v) :: next.1, next.2.1, next.2.2)
    else if oracle k then
      let next := closeSpider oracle rest
      ((k, []) :: next.1, ⟨k, v⟩ :: next.2.1, next.2.2)
    else ((k, v) :: rest, [⟨k, v⟩], some PipeError.loadFailure)

/-- A whole failure-free pipeline lifetime: submit all items, then
`close_spider`.  Returns the final buffers and the `load` call log. -/
def pipelineRun (p : PipeConfig) (sp : SpiderModel) (items : List Record) :
    Buffers × List LoadCall :=
  let run := runItems p sp items []
  let closed := closeSpider (fun _ => true) run.1
  (closed.1, run.2 ++ closed.2.1)

/-- The calls of a log aimed at destination `d`. -/
def callsFor (d : Destination) (cs : List LoadCall) : List LoadCall :=
  cs.filter (fun c => c.dest == d)

/-- The records submitted for destination `d`, in submission order. -/
def submittedFor (p : PipeConfig) (sp : SpiderModel) (d : Destination)
    (items : List Record) : List Record :=
  items.filter (fun i => resolvesTo p sp i d)

/-- Concatenation of the record batches of a call log, in call order. -/
def recordsOf : List LoadCall → List Record
  | [] => []
  | c :: cs => c.records ++ recordsOf cs

/-- The buffers after every bucket has been drained. -/
def drainAll (bufs : Buffers) : Buffers :=
  bufs.map (fun e => (e.1, ([] : List Record)))

/-- The `load` calls a full drain of `bufs` performs, in order: one per
non-empty bucket. -/
def flushedCalls (bufs : Buffers) : List LoadCall :=
  (bufs.filter (fun e => !e.2.isEmpty)).map (fun e => ⟨e.1, e.2⟩)

/-- The destinations currently keyed in the buffers dict. -/
def bufKeys (bufs : Buffers) : List Destination := bufs.map Prod.fst

/-! ## Sample values used by concrete theorems -/

/-- The settings of the README demo: defaults `demo.quotes`, batch 50. -/
def sampleConfig : PipeConfig := ⟨"demo", "quotes", 50⟩

/-- A spider with no Doris attributes at all. -/
def plainSpider : SpiderModel := ⟨none, none, none⟩

/-- One concrete extracted record. -/
def sampleRecord : Record := [("title", "q1")]

/-- 120 submissions of the same record. -/
def items120 : List Record := List.replicate 120 sampleRecord

/-- `QuotesSpider` from `src/onlyupou/spiders/example.py` at its class
attribute values: static `doris_database = "demo"`, `doris_table =
"quotes"`, and a `get_doris_target` override that routes items without an
author (`description` field falsy) to table `quotes_unknown_author`. -/
def quotesSpider : SpiderModel where
  get_doris_target := some (fun item =>
    if optTruthy (item.lookup "description") then some (some "demo", some "quotes")
    else some (some "demo", some "quotes_unknown_author"))
  doris_database := some (some "demo")
  doris_table := some (some "quotes")

/-- An item whose `description` (author) field is absent. -/
def noAuthorItem : Record := [("title", "t1"), ("url", "u1")]

/-- A spider whose override yields only a table component and whose only
static attribute is a database: no single tier carries a full pair. -/
def mixSpider : SpiderModel :=
  ⟨some (fun _ => some (none, some "side_table")), some (some "side_db"), none⟩

/-- A pipeline with empty global defaults. -/
def cfgEmpty : PipeConfig := ⟨"", "", 50⟩

/-- A shutdown network oracle that fails every destination except those
in database "a". -/
def orcW : Destination → Bool := fun d => d.1 == "a"

/-- The demo destination. -/
def dW : Destination := ("demo", "quotes")

/-- A buffer dictionary holding one record for the demo destination. -/
def bufW : Buffers := [(dW, [sampleRecord])]

/-! ## Helper lemmas about the buffer dictionary -/

theorem bufKeys_cons (k : Destination) (v : List Record) (rest : Buffers) :
    bufKeys ((k, v) :: rest) = k :: bufKeys rest := rfl

theorem getBuf_clearBuf_self (bufs : Buffers) (d : Destination) :
    getBuf (clearBuf bufs d) d = [] := by
  induction bufs with
  | nil => rfl
  | cons e rest ih =>
    obtain ⟨k, v⟩ := e
    by_cases h : k = d
    · simp [clearBuf, getBuf, h]
    · simp [clearBuf, getBuf, h, ih]

theorem getBuf_clearBuf_ne (bufs : Buffers) (d d' : Destination) (h : d' ≠ d) :
    getBuf (clearBuf bufs d) d' = getBuf bufs d' := by
  induction bufs with
  | nil => rfl
  | cons e rest ih =>
    obtain ⟨k, v⟩ := e
    have hdd : ¬d = d' := fun hh => h hh.symm
    by_cases hk : k = d
    · simp [clearBuf, getBuf, hk, hdd, ih]
    · by_cases hk' : k = d'
      · simp [clearBuf, getBuf, hk, hk', h]
      · simp [clearBuf, getBuf, hk, hk', ih]

theorem getBuf_appendBuf_self (bufs : Buffers) (d : Destination) (r : Record) :
    getBuf (appendBuf bufs d r) d = getBuf bufs d ++ [r] := by
  induction bufs with
  | nil => simp [appendBuf, getBuf]
  | cons e rest ih =>
    obtain ⟨k, v⟩ := e
    by_cases h : k = d
    · simp [appendBuf, getBuf, h]
    · simp [appendBuf, getBuf, h, ih]

theorem getBuf_appendBuf_ne (bufs : Buffers) (d d' : Destination) (r : Record) (h : d' ≠ d) :
    getBuf (appendBuf bufs d r) d' = getBuf bufs d' := by
  induction bufs with
  | nil =>
    have hd : ¬d = d' := fun hh => h hh.symm
    simp [appendBuf, getBuf, hd]
  | cons e rest ih =>
    obtain ⟨k, v⟩ := e
    have hdd : ¬d = d' := fun hh => h hh.symm
    by_cases hk : k = d
    · simp [appendBuf, getBuf, hk, hdd]
    · by_cases hk' : k = d'
      · simp [appendBuf, getBuf, hk, hk', h]
      · simp [appendBuf, getBuf, hk, hk', ih]

theorem getBuf_eq_nil_of_not_mem (bufs : Buffers) (d : Destination)
    (h : d ∉ bufKeys bufs) : getBuf bufs d = [] := by
  induction bufs with
  | nil => rfl
  | cons e rest ih =>
    obtain ⟨k, v⟩ := e
    rw [bufKeys_cons] at h
    have h1 : ¬d = k := fun hh => h (hh ▸ List.mem_cons_self k (bufKeys rest))
    have h2 : d ∉ bufKeys rest := fun hh => h (List.mem_cons_of_mem k hh)
    have hk : ¬k = d := fun hh => h1 hh.symm
    simp [getBuf, hk]
    exact ih h2

theorem mem_bufKeys (bufs : Buffers) (k : Destination) (v : List Record)
    (hm : (k, v) ∈ bufs) : k ∈ bufKeys bufs :=
  List.mem_map.mpr ⟨(k, v), hm, rfl⟩

theorem getBuf_of_mem_nodup (bufs : Buffers) (k : Destination) (v : List Record)
    (hnd : (bufKeys bufs).Nodup) (hm : (k, v) ∈ bufs) : getBuf bufs k = v := by
  induction bufs with
  | nil => cases hm
  | cons e rest ih =>
    obtain ⟨k0, v0⟩ := e
    rw [bufKeys_cons] at hnd
    have hnd' := List.nodup_cons.mp hnd
    rcases List.mem_cons.mp hm with h | h
    · obtain ⟨hk, hv⟩ := Prod.mk.injEq .. ▸ h
      subst hk
      subst hv
      simp [getBuf]
    · have hk : ¬k0 = k := fun hh => hnd'.1 (hh ▸ mem_bufKeys rest k v h)
      simp [getBuf, hk]
      exact ih hnd'.2 h

theorem bufKeys_appendBuf (bufs : Buffers) (d : Destination) (r : Record) :
    bufKeys (appendBuf bufs d r)
      = if d ∈ bufKeys bufs then bufKeys bufs else bufKeys bufs ++ [d] := by
  induction bufs with
  | nil => simp [appendBuf, bufKeys]
  | cons e rest ih =>
    obtain ⟨k, v⟩ := e
    by_cases hk : k = d
    · simp [appendBuf, hk, bufKeys_cons]
    · have hdk : ¬d = k := fun hh => hk hh.symm
      by_cases hd : d ∈ bufKeys rest
      · simp [appendBuf, hk, bufKeys_cons, hd, hdk, ih]
      · simp [appendBuf, hk, bufKeys_cons, hd, hdk, ih]

theorem nodup_bufKeys_appendBuf (bufs : Buffers) (d : Destination) (r : Record)
    (hnd : (bufKeys bufs).Nodup) : (bufKeys (appendBuf bufs d r)).Nodup := by
  rw [bufKeys_appendBuf]
  by_cases hd : d ∈ bufKeys bufs
  · simpa [hd] using hnd
  · have : (bufKeys bufs ++ [d]).Nodup := by
      refine List.Nodup.append hnd (List.nodup_singleton d) ?_
      intro x hx hx'
      rw [List.mem_singleton] at hx'
      exact hd (hx' ▸ hx)
    simpa [hd] using this

theorem bufKeys_clearBuf (bufs : Buffers) (d : Destination) :
    bufKeys (clearBuf bufs d) = bufKeys bufs := by
  induction bufs with
  | nil => rfl
  | cons e rest ih =>
    obtain ⟨k, v⟩ := e
    by_cases hk : k = d
    · simp [clearBuf, hk, bufKeys_cons]
    · simp [clearBuf, hk, bufKeys_cons]
      simpa [bufKeys] using ih

/-! ## Helper lemmas about `close_spider` and `_flush` -/

theorem closeSpider_true_eq (bufs : Buffers) :
    closeSpider (fun _ => true) bufs = (drainAll bufs, flushedCalls bufs, none) := by
  induction bufs with
  | nil => rfl
  | cons e rest ih =>
    obtain ⟨k, v⟩ := e
    by_cases hv : v = []
    · subst hv
      simp [closeSpider, drainAll, flushedCalls, ih]
    · simp [closeSpider, hv, drainAll, flushedCalls, List.isEmpty_iff, ih]

theorem closeSpider_abort (oracle : Destination → Bool) (pre : Buffers) (k : Destination)
    (buf : List Record) (rest : Buffers)
    (hpre : ∀ e ∈ pre, e.2 ≠ [] → oracle e.1 = true)
    (hbuf : buf ≠ []) (hk : oracle k = false) :
    closeSpider oracle (pre ++ (k, buf) :: rest)
      = (drainAll pre ++ (k, buf) :: rest, flushedCalls pre ++ [⟨k, buf⟩],
         some PipeError.loadFailure) := by
  induction pre with
  | nil => simp [closeSpider, hbuf, hk, drainAll, flushedCalls]
  | cons e pre' ih =>
    obtain ⟨k0, v0⟩ := e
    have hpre' : ∀ e ∈ pre', e.2 ≠ [] → oracle e.1 = true :=
      fun e he => hpre e (List.mem_cons_of_mem _ he)
    by_cases hv : v0 = []
    · subst hv
      simp [closeSpider, drainAll, flushedCalls, ih hpre']
    · have ho : oracle k0 = true := hpre (k0, v0) (List.mem_cons_self _ _) hv
      simp [closeSpider, hv, ho, drainAll, flushedCalls, List.isEmpty_iff, ih hpre']

theorem flushStep_frame (d d' : Destination) (ok : Bool) (bufs : Buffers) (h : d' ≠ d) :
    getBuf (flushStep d ok bufs).1 d' = getBuf bufs d' := by
  by_cases hb : getBuf bufs d = []
  · simp [flushStep, hb]
  · by_cases hok : ok
    · simp [flushStep, hb, hok, getBuf_clearBuf_ne bufs d d' h]
    · simp [flushStep, hb, hok]

/-! ## Helper lemmas about call logs and resolution -/

theorem recordsOf_append (a b : List LoadCall) :
    recordsOf (a ++ b) = recordsOf a ++ recordsOf b := by
  induction a with
  | nil => rfl
  | cons c cs ih => simp [recordsOf, ih]

theorem recordsOf_eq_nil (cs : List LoadCall) (h : recordsOf cs = []) :
    ∀ c ∈ cs, c.records = [] := by
  induction cs with
  | nil => intro c hc; cases hc
  | cons c0 cs ih =>
    intro c hc
    rw [recordsOf, List.append_eq_nil] at h
    rcases List.mem_cons.mp hc with hc | hc
    · rw [hc]; exact h.1
    · exact ih h.2 c hc

theorem recordsOf_length (cs : List LoadCall) (n : Nat)
    (h : ∀ c ∈ cs, c.records.length = n) :
    (recordsOf cs).length = n * cs.length := by
  induction cs with
  | nil => simp [recordsOf]
  | cons c0 cs ih =>
    rw [recordsOf, List.length_append, h c0 (List.mem_cons_self _ _),
      ih (fun c hc => h c (List.mem_cons_of_mem _ hc))]
    simp [List.length_cons]
    ring

theorem callsFor_append (d : Destination) (a b : List LoadCall) :
    callsFor d (a ++ b) = callsFor d a ++ callsFor d b := by
  simp [callsFor]

theorem callsFor_cons (d : Destination) (c : LoadCall) (cs : List LoadCall) :
    callsFor d (c :: cs)
      = if c.dest = d then c :: callsFor d cs else callsFor d cs := by
  by_cases h : c.dest = d <;> simp [callsFor, List.filter_cons, h]

theorem callsFor_eq_self (d : Destination) (cs : List LoadCall)
    (h : ∀ c ∈ cs, c.dest = d) : callsFor d cs = cs := by
  induction cs with
  | nil => rfl
  | cons c0 cs ih =>
    rw [callsFor_cons, if_pos (h c0 (List.mem_cons_self _ _))]
    rw [ih (fun c hc => h c (List.mem_cons_of_mem _ hc))]

theorem resolvesTo_iff (p : PipeConfig) (sp : SpiderModel) (i : Record) (d : Destination) :
    resolvesTo p sp i d = true ↔ resolveTarget p sp i = Except.ok d := by
  unfold resolvesTo
  cases h : resolveTarget p sp i with
  | ok d' => simp
  | error e => simp

theorem resolvesTo_unique (p : PipeConfig) (sp : SpiderModel) (i : Record)
    (d0 d : Destination) (h : resolvesTo p sp i d0 = true) (hne : d ≠ d0) :
    resolvesTo p sp i d = false := by
  have hok := (resolvesTo_iff p sp i d0).mp h
  have hd : ¬d0 = d := fun hh => hne hh.symm
  unfold resolvesTo
  rw [hok]
  simpa using hd

theorem submittedFor_cons (p : PipeConfig) (sp : SpiderModel) (d : Destination)
    (i : Record) (rest : List Record) :
    submittedFor p sp d (i :: rest)
      = if resolvesTo p sp i d then i :: submittedFor p sp d rest
        else submittedFor p sp d rest := by
  by_cases h : resolvesTo p sp i d <;> simp [submittedFor, List.filter_cons, h]

/-! ## Per-step and per-run invariants of the pipeline -/

theorem flushStep_keys (d : Destination) (ok : Bool) (bufs : Buffers) :
    bufKeys (flushStep d ok bufs).1 = bufKeys bufs := by
  by_cases hb : getBuf bufs d = []
  · simp [flushStep, hb]
  · by_cases hok : ok <;> simp [flushStep, hb, hok, bufKeys_clearBuf]

theorem processItem_nodup (p : PipeConfig) (sp : SpiderModel) (i : Record) (ok : Bool)
    (bufs : Buffers) (hnd : (bufKeys bufs).Nodup) :
    (bufKeys (processItem p sp i ok bufs).1).Nodup := by
  cases hres : resolveTarget p sp i with
  | error e => simpa [processItem, hres] using hnd
  | ok d0 =>
    by_cases hth : p.batch_size ≤ (getBuf (appendBuf bufs d0 i) d0).length
    · simp only [processItem, hres, hth, if_pos]
      rw [flushStep_keys]
      exact nodup_bufKeys_appendBuf bufs d0 i hnd
    · simp only [processItem, hres, hth, if_neg, not_false_iff]
      exact nodup_bufKeys_appendBuf bufs d0 i hnd

theorem processItem_content (p : PipeConfig) (sp : SpiderModel) (i : Record)
    (bufs : Buffers) (d : Destination) :
    recordsOf (callsFor d (processItem p sp i true bufs).2.1)
        ++ getBuf (processItem p sp i true bufs).1 d
      = getBuf bufs d ++ (if resolvesTo p sp i d then [i] else []) := by
  cases hres : resolveTarget p sp i with
  | error e =>
    have hrt : resolvesTo p sp i d = false := by simp [resolvesTo, hres]
    simp [processItem, hres, callsFor, recordsOf, hrt]
  | ok d0 =>
    by_cases hd : d0 = d
    · subst hd
      have hrt : resolvesTo p sp i d0 = true := by simp [resolvesTo, hres]
      by_cases hth : p.batch_size ≤ (getBuf (appendBuf bufs d0 i) d0).length
      · have hne : getBuf (appendBuf bufs d0 i) d0 ≠ [] := by
          rw [getBuf_appendBuf_self]; simp
        simp only [processItem, hres, hth, if_pos, flushStep, hne, if_neg,
          not_false_iff, if_true]
        rw [callsFor_cons, if_pos rfl]
        simp [recordsOf, callsFor, getBuf_clearBuf_self, getBuf_appendBuf_self, hrt]
      · simp only [processItem, hres, hth, if_neg, not_false_iff]
        simp [callsFor, recordsOf, getBuf_appendBuf_self, hrt]
    · have hdd : d ≠ d0 := fun hh => hd hh.symm
      have hrt : resolvesTo p sp i d = false := by
        unfold resolvesTo
        rw [hres]
        simpa using hd
      by_cases hth : p.batch_size ≤ (getBuf (appendBuf bufs d0 i) d0).length
      · have hne : getBuf (appendBuf bufs d0 i) d0 ≠ [] := by
          rw [getBuf_appendBuf_self]; simp
        simp only [processItem, hres, hth, if_pos, flushStep, hne, if_neg,
          not_false_iff, if_true]
        rw [callsFor_cons, if_neg hd]
        simp [callsFor, recordsOf, hrt, getBuf_clearBuf_ne _ _ _ hdd,
          getBuf_appendBuf_ne _ _ _ _ hdd]
      · simp only [processItem, hres, hth, if_neg, not_false_iff]
        simp [callsFor, recordsOf, hrt, getBuf_appendBuf_ne _ _ _ _ hdd]

theorem processItem_len (p : PipeConfig) (sp : SpiderModel) (i : Record) (bufs : Buffers)
    (hbs : 0 < p.batch_size)
    (hlt : ∀ d, (getBuf bufs d).length < p.batch_size) :
    (∀ d, (getBuf (processItem p sp i true bufs).1 d).length < p.batch_size)
    ∧ ∀ c ∈ (processItem p sp i true bufs).2.1, c.records.length = p.batch_size := by
  cases hres : resolveTarget p sp i with
  | error e =>
    constructor
    · intro d; simpa [processItem, hres] using hlt d
    · intro c hc; simp [processItem, hres] at hc
  | ok d0 =>
    have hlen1 : (getBuf (appendBuf bufs d0 i) d0).length = (getBuf bufs d0).length + 1 := by
      rw [getBuf_appendBuf_self]; simp
    by_cases hth : p.batch_size ≤ (getBuf (appendBuf bufs d0 i) d0).length
    · have heq : (getBuf (appendBuf bufs d0 i) d0).length = p.batch_size := by
        have := hlt d0; omega
      have hne : getBuf (appendBuf bufs d0 i) d0 ≠ [] := by
        rw [getBuf_appendBuf_self]; simp
      constructor
      · intro d
        by_cases hd : d = d0
        · subst hd
          simp only [processItem, hres, hth, if_pos, flushStep, hne, if_neg,
            not_false_iff, if_true]
          simpa [getBuf_clearBuf_self] using hbs
        · simp only [processItem, hres, hth, if_pos]
          rw [flushStep_frame d0 d true _ hd, getBuf_appendBuf_ne bufs d0 d i hd]
          exact hlt d
      · intro c hc
        simp only [processItem, hres, hth, if_pos, flushStep, hne, if_neg,
          not_false_iff, if_true] at hc
        rw [List.mem_singleton] at hc
        rw [hc]
        exact heq
    · constructor
      · intro d
        by_cases hd : d = d0
        · subst hd
          simp only [processItem, hres, hth, if_neg, not_false_iff]
          omega
        · simp only [processItem, hres, hth, if_neg, not_false_iff]
          rw [getBuf_appendBuf_ne bufs d0 d i hd]
          exact hlt d
      · intro c hc
        simp [processItem, hres, hth] at hc

theorem runItems_content (p : PipeConfig) (sp : SpiderModel) (items : List Record) :
    ∀ (bufs : Buffers) (d : Destination),
    recordsOf (callsFor d (runItems p sp items bufs).2)
        ++ getBuf (runItems p sp items bufs).1 d
      = getBuf bufs d ++ submittedFor p sp d items := by
  induction items with
  | nil =>
    intro bufs d
    simp [runItems, callsFor, recordsOf, submittedFor]
  | cons i rest ih =>
    intro bufs d
    show recordsOf (callsFor d ((processItem p sp i true bufs).2.1
          ++ (runItems p sp rest (processItem p sp i true bufs).1).2))
        ++ getBuf (runItems p sp rest (processItem p sp i true bufs).1).1 d = _
    rw [callsFor_append, recordsOf_append, List.append_assoc,
      ih (processItem p sp i true bufs).1 d, ← List.append_assoc,
      processItem_content p sp i bufs d, submittedFor_cons]
    by_cases hr : resolvesTo p sp i d <;> simp [hr]

theorem runItems_len (p : PipeConfig) (sp : SpiderModel) (hbs : 0 < p.batch_size)
    (items : List Record) :
    ∀ bufs : Buffers, (∀ d, (getBuf bufs d).length < p.batch_size) →
    (∀ d, (getBuf (runItems p sp items bufs).1 d).length < p.batch_size)
    ∧ ∀ c ∈ (runItems p sp items bufs).2, c.records.length = p.batch_size := by
  induction items with
  | nil =>
    intro bufs h
    constructor
    · intro d; simpa [runItems] using h d
    · intro c hc; simp [runItems] at hc
  | cons i rest ih =>
    intro bufs h
    obtain ⟨h1, h2⟩ := processItem_len p sp i bufs hbs h
    obtain ⟨h3, h4⟩ := ih (processItem p sp i true bufs).1 h1
    constructor
    · intro d
      simpa [runItems] using h3 d
    · intro c hc
      simp only [runItems, List.mem_append] at hc
      rcases hc with hc | hc
      · exact h2 c hc
      · exact h4 c hc

theorem runItems_nodup (p : PipeConfig) (sp : SpiderModel) (items : List Record) :
    ∀ bufs : Buffers, (bufKeys bufs).Nodup →
    (bufKeys (runItems p sp items bufs).1).Nodup := by
  induction items with
  | nil => intro bufs h; simpa [runItems] using h
  | cons i rest ih =>
    intro bufs h
    simpa [runItems] using
      ih (processItem p sp i true bufs).1 (processItem_nodup p sp i true bufs h)

/-! ## Helper lemmas about the shutdown drain -/

theorem flushedCalls_cons (k : Destination) (v : List Record) (rest : Buffers) :
    flushedCalls ((k, v) :: rest)
      = if v = [] then flushedCalls rest else ⟨k, v⟩ :: flushedCalls rest := by
  by_cases hv : v = [] <;>
    simp [flushedCalls, List.filter_cons, hv, List.isEmpty_iff]

theorem flushedCalls_dest_mem (bufs : Buffers) (c : LoadCall)
    (hc : c ∈ flushedCalls bufs) : c.dest ∈ bufKeys bufs := by
  induction bufs with
  | nil => simp [flushedCalls] at hc
  | cons e rest ih =>
    obtain ⟨k, v⟩ := e
    rw [flushedCalls_cons] at hc
    rw [bufKeys_cons]
    by_cases hv : v = []
    · rw [if_pos hv] at hc
      exact List.mem_cons_of_mem k (ih hc)
    · rw [if_neg hv] at hc
      rcases List.mem_cons.mp hc with hc | hc
      · rw [hc]
        exact List.mem_cons_self _ _
      · exact List.mem_cons_of_mem k (ih hc)

theorem callsFor_flushedCalls_nil (bufs : Buffers) (d : Destination)
    (h : d ∉ bufKeys bufs) : callsFor d (flushedCalls bufs) = [] := by
  induction bufs with
  | nil => rfl
  | cons e rest ih =>
    obtain ⟨k, v⟩ := e
    rw [bufKeys_cons] at h
    have h1 : ¬k = d := fun hh => h (hh ▸ List.mem_cons_self k (bufKeys rest))
    have h2 : d ∉ bufKeys rest := fun hh => h (List.mem_cons_of_mem k hh)
    rw [flushedCalls_cons]
    by_cases hv : v = []
    · rw [if_pos hv]
      exact ih h2
    · rw [if_neg hv, callsFor_cons, if_neg h1]
      exact ih h2

theorem flushedCalls_content (bufs : Buffers) (d : Destination)
    (hnd : (bufKeys bufs).Nodup) :
    recordsOf (callsFor d (flushedCalls bufs)) = getBuf bufs d := by
  induction bufs with
  | nil => rfl
  | cons e rest ih =>
    obtain ⟨k, v⟩ := e
    rw [bufKeys_cons] at hnd
    have hnd' := List.nodup_cons.mp hnd
    rw [flushedCalls_cons]
    by_cases hv : v = []
    · rw [if_pos hv]
      by_cases hkd : k = d
      · subst hkd
        rw [callsFor_flushedCalls_nil rest k hnd'.1]
        simp [getBuf, recordsOf, hv]
      · simp only [getBuf, hkd, if_neg, not_false_iff]
        exact ih hnd'.2
    · rw [if_neg hv, callsFor_cons]
      by_cases hkd : k = d
      · subst hkd
        rw [if_pos rfl, callsFor_flushedCalls_nil rest k hnd'.1]
        simp [getBuf, recordsOf]
      · rw [if_neg hkd]
        simp only [getBuf, hkd, if_neg, not_false_iff]
        exact ih hnd'.2

theorem mem_flushedCalls (bufs : Buffers) (c : LoadCall)
    (hnd : (bufKeys bufs).Nodup) (hc : c ∈ flushedCalls bufs) :
    c.records = getBuf bufs c.dest ∧ c.records ≠ [] := by
  induction bufs with
  | nil => simp [flushedCalls] at hc
  | cons e rest ih =>
    obtain ⟨k, v⟩ := e
    rw [bufKeys_cons] at hnd
    have hnd' := List.nodup_cons.mp hnd
    rw [flushedCalls_cons] at hc
    by_cases hv : v = []
    · rw [if_pos hv] at hc
      obtain ⟨hrec, hne⟩ := ih hnd'.2 hc
      have hkd : ¬k = c.dest := by
        intro hh
        exact hnd'.1 (hh ▸ flushedCalls_dest_mem rest c hc)
      exact ⟨by simpa [getBuf, hkd] using hrec, hne⟩
    · rw [if_neg hv] at hc
      rcases List.mem_cons.mp hc with hc | hc
      · rw [hc]
        simp [getBuf, hv]
      · obtain ⟨hrec, hne⟩ := ih hnd'.2 hc
        have hkd : ¬k = c.dest := by
          intro hh
          exact hnd'.1 (hh ▸ flushedCalls_dest_mem rest c hc)
        exact ⟨by simpa [getBuf, hkd] using hrec, hne⟩

theorem flushedCalls_single (d0 : Destination) :
    ∀ bufs : Buffers, (bufKeys bufs).Nodup →
    (∀ d', d' ≠ d0 → getBuf bufs d' = []) →
    flushedCalls bufs
      = if getBuf bufs d0 = [] then [] else [⟨d0, getBuf bufs d0⟩] := by
  intro bufs
  induction bufs with
  | nil => intro _ _; simp [flushedCalls, getBuf]
  | cons e rest ih =>
    intro hnd hother
    obtain ⟨k, v⟩ := e
    rw [bufKeys_cons] at hnd
    have hnd' := List.nodup_cons.mp hnd
    by_cases hkd : k = d0
    · subst hkd
      have hrest : ∀ d', d' ≠ k → getBuf rest d' = [] := by
        intro d' hd'
        have hne : ¬k = d' := fun hh => hd' hh.symm
        have := hother d' hd'
        simpa [getBuf, hne] using this
      have hrest0 : getBuf rest k = [] := getBuf_eq_nil_of_not_mem rest k hnd'.1
      rw [flushedCalls_cons, ih hnd'.2 hrest, hrest0]
      by_cases hv : v = [] <;> simp [getBuf, hv]
    · have hv : v = [] := by
        have := hother k hkd
        simpa [getBuf] using this
      subst hv
      have hrest : ∀ d', d' ≠ d0 → getBuf rest d' = [] := by
        intro d' hd'
        by_cases hdk : d' = k
        · exact hdk ▸ getBuf_eq_nil_of_not_mem rest k hnd'.1
        · have hne : ¬k = d' := fun hh => hdk hh.symm
          have := hother d' hd'
          simpa [getBuf, hne] using this
      have hg : getBuf (((k, []) : Destination × List Record) :: rest) d0
          = getBuf rest d0 := by
        simp [getBuf, hkd]
      rw [flushedCalls_cons, if_pos rfl, ih hnd'.2 hrest, hg]

/-! ## Arithmetic helpers -/

theorem div_mod_of_eq (n bs q r : Nat) (hbs : 0 < bs) (h : bs * q + r = n)
    (hr : r < bs) : n / bs = q ∧ n % bs = r := by
  subst h
  constructor
  · have hr0 : r / bs = 0 := Nat.div_eq_of_lt hr
    rw [Nat.mul_add_div hbs, hr0]
    omega
  · rw [Nat.mul_add_mod]
    exact Nat.mod_eq_of_lt hr

theorem div_add_remainder_ceil (n bs : Nat) (hbs : 0 < bs) :
    n / bs + (if n % bs = 0 then 0 else 1) = (n + bs - 1) / bs := by
  have hdm := Nat.div_add_mod n bs
  by_cases h0 : n % bs = 0
  · rw [if_pos h0]
    have h1 : n + bs - 1 = bs * (n / bs) + (bs - 1) := by omega
    have hb1 : (bs - 1) / bs = 0 := Nat.div_eq_of_lt (by omega)
    rw [h1, Nat.mul_add_div hbs, hb1]
  · rw [if_neg h0]
    have hrlt : n % bs < bs := Nat.mod_lt _ hbs
    have h2 : bs * (n / bs + 1) = bs * (n / bs) + bs := by ring
    have h1 : n + bs - 1 = bs * (n / bs + 1) + (n % bs - 1) := by omega
    have hb1 : (n % bs - 1) / bs = 0 := Nat.div_eq_of_lt (by omega)
    rw [h1, Nat.mul_add_div hbs, hb1]

/-! ## Claim theorems -/

/-- C1 (counterexample): flushing a non-empty buffer whose `load` call
fails raises `LoadFailure` but does NOT empty the buffer —
`buffer.clear()` runs only after a successful `load` — and a later
shutdown flush retries exactly the same records. -/
theorem flush_failure_cex :
    (flushStep ("demo", "quotes") false [(("demo", "quotes"), [sampleRecord])]).2.2
        = some PipeError.loadFailure
    ∧ getBuf (flushStep ("demo", "quotes") false [(("demo", "quotes"), [sampleRecord])]).1
        ("demo", "quotes") = [sampleRecord]
    ∧ ([sampleRecord] : List Record) ≠ []
    ∧ (closeSpider (fun _ => true)
        (flushStep ("demo", "quotes") false [(("demo", "quotes"), [sampleRecord])]).1).2.1
        = [⟨("demo", "quotes"), [sampleRecord]⟩] := by decide

/-- C1 (amended): `flush` of a non-empty buffer always invokes `load` on
the drained records; on success it clears the buffer, but on failure it
propagates `LoadFailure` with the buffer left unchanged, and the retained
records are retried (re-loaded) by the next successful flush. -/
theorem flush_failure_keeps_buffer (d : Destination) (bufs : Buffers)
    (h : getBuf bufs d ≠ []) :
    flushStep d true bufs = (clearBuf bufs d, [⟨d, getBuf bufs d⟩], none)
    ∧ flushStep d false bufs = (bufs, [⟨d, getBuf bufs d⟩], some PipeError.loadFailure)
    ∧ getBuf (clearBuf bufs d) d = []
    ∧ (flushStep d true (flushStep d false bufs).1).2.1 = [⟨d, getBuf bufs d⟩] := by
  refine ⟨?_, ?_, getBuf_clearBuf_self bufs d, ?_⟩ <;> simp [flushStep, h]

/-- C1 (witness): the amended statement at a concrete one-record buffer. -/
theorem flush_failure_keeps_buffer_witness :
    flushStep dW true bufW = (clearBuf bufW dW, [⟨dW, getBuf bufW dW⟩], none)
    ∧ flushStep dW false bufW = (bufW, [⟨dW, getBuf bufW dW⟩], some PipeError.loadFailure)
    ∧ getBuf (clearBuf bufW dW) dW = []
    ∧ (flushStep dW true (flushStep dW false bufW).1).2.1 = [⟨dW, getBuf bufW dW⟩] :=
  flush_failure_keeps_buffer dW bufW (by decide)

/-- C2 (counterexample): with two non-empty buffers where the first
destination's load fails, `close_spider` re-raises the failure right
after the first flush: the second buffer's flush is never attempted and
its records stay buffered, contradicting "attempt every buffer's flush
and log, never re-raise, during shutdown". -/
theorem close_spider_failure_cex :
    closeSpider orcW [(("b", "t1"), [sampleRecord]), (("a", "t2"), [sampleRecord])]
      = ([(("b", "t1"), [sampleRecord]), (("a", "t2"), [sampleRecord])],
         [⟨("b", "t1"), [sampleRecord]⟩], some PipeError.loadFailure)
    ∧ getBuf [(("b", "t1"), [sampleRecord]), (("a", "t2"), [sampleRecord])] ("a", "t2")
        = [sampleRecord]
    ∧ ([sampleRecord] : List Record) ≠ [] := by decide

/-- C2 (amended): `close_spider` flushes the non-empty buffers in
insertion order; when every load succeeds it drains them all without
raising, but the first failing load is re-raised immediately: the
preceding buffers are drained, the failing one keeps its records, and the
buffers after it are left untouched, their flushes never attempted. -/
theorem close_spider_drain_or_abort :
    (∀ bufs : Buffers,
      closeSpider (fun _ => true) bufs = (drainAll bufs, flushedCalls bufs, none))
    ∧ ∀ (oracle : Destination → Bool) (pre : Buffers) (k : Destination)
        (buf : List Record) (rest : Buffers),
        (∀ e ∈ pre, e.2 ≠ [] → oracle e.1 = true) → buf ≠ [] → oracle k = false →
        closeSpider oracle (pre ++ (k, buf) :: rest)
          = (drainAll pre ++ (k, buf) :: rest, flushedCalls pre ++ [⟨k, buf⟩],
             some PipeError.loadFailure) :=
  ⟨closeSpider_true_eq, closeSpider_abort⟩

/-- C2 (witness): the abort case at a concrete two-destination state. -/
theorem close_spider_drain_or_abort_witness :
    closeSpider orcW ([(("a", "t"), [sampleRecord])] ++ (("b", "t"), [sampleRecord]) :: [])
      = (drainAll [(("a", "t"), [sampleRecord])] ++ (("b", "t"), [sampleRecord]) :: [],
         flushedCalls [(("a", "t"), [sampleRecord])] ++ [⟨("b", "t"), [sampleRecord]⟩],
         some PipeError.loadFailure) :=
  close_spider_drain_or_abort.2 orcW [(("a", "t"), [sampleRecord])] ("b", "t")
    [sampleRecord] [] (by decide) (by decide) (by decide)

/-- C3 (code-bug evaluation): `_resolve_target` applies the spider's
static `doris_database`/`doris_table` attributes AFTER the
`get_doris_target` override, so the static pair clobbers the override.
At the example spider's own inputs — an item without an author, whose
override returns `(demo, quotes_unknown_author)` — the code resolves to
the static `(demo, quotes)` instead of the override's pair. -/
theorem resolve_static_clobbers_getter :
    overrideResult quotesSpider noAuthorItem
        = some (some "demo", some "quotes_unknown_author")
    ∧ resolveTarget sampleConfig quotesSpider noAuthorItem
        = Except.ok ("demo", "quotes")
    ∧ (("demo", "quotes") : Destination) ≠ ("demo", "quotes_unknown_author") :=
  ⟨rfl, rfl, by decide⟩

/-- C6 (counterexample): resolution combines components across tiers.
Here no single tier yields a non-empty `(database, table)` pair — the
override returns `(None, "side_table")`, the only static attribute is
`doris_database = "side_db"`, and the global defaults are empty — yet
`resolve` succeeds with the mixed pair instead of raising. -/
theorem resolve_mixed_tiers_cex :
    overrideResult mixSpider sampleRecord = some (none, some "side_table")
    ∧ optTruthy none = false
    ∧ mixSpider.doris_table = none
    ∧ cfgEmpty.default_database = ""
    ∧ cfgEmpty.default_table = ""
    ∧ resolveTarget cfgEmpty mixSpider sampleRecord
        = Except.ok ("side_db", "side_table") :=
  ⟨rfl, rfl, rfl, rfl, rfl, rfl⟩

/-- C6 (amended): when no resolution tier contributes a non-empty
database or table component — the override yields nothing truthy in
either component, the static attributes are absent or falsy, and the
global defaults are empty — `resolve` raises `ValueError` (the spec's
`ConfigurationError`) and `process_item` propagates it with the record
left unbuffered and no load performed. -/
theorem resolve_all_empty_raises (p : PipeConfig) (sp : SpiderModel) (item : Record)
    (ok : Bool) (bufs : Buffers)
    (h1 : ∀ a b, overrideResult sp item = some (a, b) →
        optTruthy a = false ∧ optTruthy b = false)
    (h2 : optTruthy (sp.doris_database.getD none) = false)
    (h3 : optTruthy (sp.doris_table.getD none) = false)
    (h4 : p.default_database = "")
    (h5 : p.default_table = "") :
    resolveTarget p sp item = Except.error PipeError.valueError
    ∧ processItem p sp item ok bufs = (bufs, [], some PipeError.valueError) := by
  have hdb : optTruthy (sp.doris_database.getD (resolvedPair p sp item).1) = false := by
    cases hdbA : sp.doris_database with
    | some v => simpa [hdbA] using h2
    | none =>
      cases hov : overrideResult sp item with
      | none => simp [resolvedPair, hov, h4, optTruthy]
      | some pr =>
        obtain ⟨a, b⟩ := pr
        simp [resolvedPair, hov, (h1 a b hov).1]
  have hres : resolveTarget p sp item = Except.error PipeError.valueError := by
    simp [resolveTarget, resolveCheck, hdb]
  exact ⟨hres, by simp [processItem, hres]⟩

/-- C6 (witness): the amended statement with no override, no attributes,
and empty defaults. -/
theorem resolve_all_empty_raises_witness :
    resolveTarget cfgEmpty plainSpider sampleRecord = Except.error PipeError.valueError
    ∧ processItem cfgEmpty plainSpider sampleRecord true []
        = ([], [], some PipeError.valueError) :=
  resolve_all_empty_raises cfgEmpty plainSpider sampleRecord true []
    (fun a b h => by simp [overrideResult, plainSpider] at h)
    (by decide) (by decide) rfl rfl

/-- C7 (counterexample): `process_request` treats a request whose proxy
field is set to the empty string as unassigned: it queries the store and
overwrites the assignment, so it is not a no-op on every request whose
proxy field is already set. -/
theorem process_request_preset_cex :
    processRequest ⟨"scrapy:proxies", none⟩ (StoreReply.strVal "http://1.2.3.4:8080")
        ⟨some ""⟩
      = (⟨some "http://1.2.3.4:8080"⟩, true)
    ∧ (some "" : Option String) ≠ some "http://1.2.3.4:8080" := by decide

/-- C7 (amended): `process_request` is idempotent on requests whose proxy
field holds a truthy (non-empty) value: it returns at once, performing no
store query and leaving the assignment unchanged, however often it is
called. -/
theorem process_request_idempotent (mw : RedisProxyMiddleware) (reply : StoreReply)
    (req : Request) (h : optTruthy req.metaProxy = true) :
    processRequest mw reply req = (req, false) := by
  simp [processRequest, h]

/-- C7 (witness): the amended statement at a concrete assigned request. -/
theorem process_request_idempotent_witness :
    processRequest ⟨"scrapy:proxies", none⟩ StoreReply.nil ⟨some "http://p:1"⟩
      = (⟨some "http://p:1"⟩, false) :=
  process_request_idempotent _ _ _ (by decide)

/-- C8: when the request carries no proxy assignment, the store's
random-member query yields no member, and no fallback proxy is
configured, `process_request` leaves the request with no proxy field
set (though the store was queried once). -/
theorem empty_store_no_proxy (mw : RedisProxyMiddleware) (req : Request)
    (hfb : mw.fallbackProxy = none) (hreq : req.metaProxy = none) :
    processRequest mw StoreReply.nil req = (req, true)
    ∧ (processRequest mw StoreReply.nil req).1.metaProxy = none := by
  have h : processRequest mw StoreReply.nil req = (req, true) := by
    simp [processRequest, hreq, hfb, getProxy, optTruthy]
  exact ⟨h, by rw [h]; exact hreq⟩

/-- C8 (witness): the statement at a concrete unassigned request. -/
theorem empty_store_no_proxy_witness :
    processRequest ⟨"scrapy:proxies", none⟩ StoreReply.nil ⟨none⟩ = (⟨none⟩, true)
    ∧ (processRequest ⟨"scrapy:proxies", none⟩ StoreReply.nil ⟨none⟩).1.metaProxy
        = none :=
  empty_store_no_proxy ⟨"scrapy:proxies", none⟩ ⟨none⟩ rfl rfl

/-- C10: buffer operations are framed per destination: a `process_item`
whose record resolves to `d`, and a `_flush` of `d` (whatever the load
outcome), leave the buffer of every other destination unchanged. -/
theorem buffer_ops_frame (p : PipeConfig) (sp : SpiderModel) (item : Record)
    (ok : Bool) (bufs : Buffers) (d d' : Destination)
    (hres : resolveTarget p sp item = Except.ok d) (hne : d' ≠ d) :
    getBuf (processItem p sp item ok bufs).1 d' = getBuf bufs d'
    ∧ getBuf (flushStep d ok bufs).1 d' = getBuf bufs d' := by
  constructor
  · unfold processItem
    rw [hres]
    by_cases hth : p.batch_size ≤ (getBuf (appendBuf bufs d item) d).length
    · simp only [hth, if_pos]
      rw [flushStep_frame d d' ok _ hne, getBuf_appendBuf_ne bufs d d' item hne]
    · simp only [hth, if_neg, not_false_iff]
      exact getBuf_appendBuf_ne bufs d d' item hne
  · exact flushStep_frame d d' ok bufs hne

/-- C4: in a failure-free run (submissions followed by shutdown), every
`load` call carries at most `batch_size` records, and for each
destination the concatenation of the record batches passed to successive
`load` calls, in call order, equals the sequence of records submitted for
that destination in submission order — no loss, no duplication, no
reordering. -/
theorem load_batches_reconstruct_submissions (p : PipeConfig) (sp : SpiderModel)
    (items : List Record) (d : Destination) (hbs : 0 < p.batch_size) :
    recordsOf (callsFor d (pipelineRun p sp items).2) = submittedFor p sp d items
    ∧ ∀ c ∈ (pipelineRun p sp items).2, c.records.length ≤ p.batch_size := by
  have h0 : ∀ d', (getBuf ([] : Buffers) d').length < p.batch_size := by
    intro d'
    simpa [getBuf] using hbs
  obtain ⟨hlen, hcalls⟩ := runItems_len p sp hbs items [] h0
  have hnd : (bufKeys (runItems p sp items []).1).Nodup :=
    runItems_nodup p sp items [] (by simp [bufKeys])
  have hpipe : (pipelineRun p sp items).2
      = (runItems p sp items []).2 ++ flushedCalls (runItems p sp items []).1 := by
    simp [pipelineRun, closeSpider_true_eq]
  constructor
  · rw [hpipe, callsFor_append, recordsOf_append,
      flushedCalls_content (runItems p sp items []).1 d hnd]
    have hrc := runItems_content p sp items [] d
    simpa [getBuf] using hrc
  · intro c hc
    rw [hpipe, List.mem_append] at hc
    rcases hc with hc | hc
    · exact le_of_eq (hcalls c hc)
    · obtain ⟨hrec, _⟩ := mem_flushedCalls (runItems p sp items []).1 c hnd hc
      rw [hrec]
      exact le_of_lt (hlen c.dest)

/-- C4 (witness): the statement at three concrete submissions. -/
theorem load_batches_reconstruct_submissions_witness :
    recordsOf (callsFor dW
        (pipelineRun sampleConfig plainSpider [sampleRecord, sampleRecord, sampleRecord]).2)
      = submittedFor sampleConfig plainSpider dW [sampleRecord, sampleRecord, sampleRecord]
    ∧ ∀ c ∈ (pipelineRun sampleConfig plainSpider
        [sampleRecord, sampleRecord, sampleRecord]).2,
        c.records.length ≤ sampleConfig.batch_size :=
  load_batches_reconstruct_submissions sampleConfig plainSpider
    [sampleRecord, sampleRecord, sampleRecord] dW (by decide)

/-- C5: for a failure-free run in which every item resolves to the same
destination, the submission phase performs `n / batch_size` loads of
exactly `batch_size` records each, shutdown performs one extra load of
the `n % batch_size` remaining records exactly when the remainder is
non-zero, and the total number of `load` invocations is
`⌈n / batch_size⌉ = (n + batch_size - 1) / batch_size`. -/
theorem load_call_count_is_ceil (p : PipeConfig) (sp : SpiderModel)
    (items : List Record) (d0 : Destination) (hbs : 0 < p.batch_size)
    (hall : ∀ i ∈ items, resolvesTo p sp i d0 = true) :
    (runItems p sp items []).2.length = items.length / p.batch_size
    ∧ (∀ c ∈ (runItems p sp items []).2, c.records.length = p.batch_size)
    ∧ (closeSpider (fun _ => true) (runItems p sp items []).1).2.1.length
        = (if items.length % p.batch_size = 0 then 0 else 1)
    ∧ (∀ c ∈ (closeSpider (fun _ => true) (runItems p sp items []).1).2.1,
        c.records.length = items.length % p.batch_size)
    ∧ (pipelineRun p sp items).2.length
        = (items.length + p.batch_size - 1) / p.batch_size := by
  have h0 : ∀ d', (getBuf ([] : Buffers) d').length < p.batch_size := by
    intro d'
    simpa [getBuf] using hbs
  obtain ⟨hlt, hbatch⟩ := runItems_len p sp hbs items [] h0
  have hnd : (bufKeys (runItems p sp items []).1).Nodup :=
    runItems_nodup p sp items [] (by simp [bufKeys])
  have hsub : submittedFor p sp d0 items = items := by
    unfold submittedFor
    exact List.filter_eq_self.mpr hall
  have hcontent := runItems_content p sp items [] d0
  rw [hsub] at hcontent
  simp only [getBuf, List.nil_append] at hcontent
  have hother : ∀ d', d' ≠ d0 →
      recordsOf (callsFor d' (runItems p sp items []).2) = []
      ∧ getBuf (runItems p sp items []).1 d' = [] := by
    intro d' hne
    have hc := runItems_content p sp items [] d'
    have hsub' : submittedFor p sp d' items = [] := by
      unfold submittedFor
      apply List.filter_eq_nil_iff.mpr
      intro i hi
      rw [resolvesTo_unique p sp i d0 d' (hall i hi) hne]
      simp
    rw [hsub'] at hc
    simp only [getBuf, List.append_nil] at hc
    exact List.append_eq_nil.mp hc
  have hdest : ∀ c ∈ (runItems p sp items []).2, c.dest = d0 := by
    intro c hc
    by_contra hne
    have h1 := (hother c.dest hne).1
    have h2 : c ∈ callsFor c.dest (runItems p sp items []).2 := by
      unfold callsFor
      rw [List.mem_filter]
      exact ⟨hc, by simp⟩
    have h3 := recordsOf_eq_nil _ h1 c h2
    have h4 := hbatch c hc
    rw [h3] at h4
    simp at h4
    omega
  have hcf : callsFor d0 (runItems p sp items []).2 = (runItems p sp items []).2 :=
    callsFor_eq_self d0 _ hdest
  rw [hcf] at hcontent
  have hlen_eq : p.batch_size * (runItems p sp items []).2.length
      + (getBuf (runItems p sp items []).1 d0).length = items.length := by
    have hl := congrArg List.length hcontent
    rw [List.length_append, recordsOf_length _ p.batch_size hbatch] at hl
    exact hl
  obtain ⟨hdiv, hmod⟩ := div_mod_of_eq items.length p.batch_size
    (runItems p sp items []).2.length (getBuf (runItems p sp items []).1 d0).length
    hbs hlen_eq (hlt d0)
  have hfc := flushedCalls_single d0 (runItems p sp items []).1 hnd
    (fun d' h => (hother d' h).2)
  have hclose : (closeSpider (fun _ => true) (runItems p sp items []).1).2.1
      = flushedCalls (runItems p sp items []).1 := by
    rw [closeSpider_true_eq]
  refine ⟨hdiv.symm, hbatch, ?_, ?_, ?_⟩
  · rw [hclose, hfc]
    by_cases hbuf : getBuf (runItems p sp items []).1 d0 = []
    · have hz : items.length % p.batch_size = 0 := by
        rw [hmod, hbuf]
        rfl
      rw [if_pos hbuf, hz]
      simp
    · have hz : items.length % p.batch_size ≠ 0 := by
        rw [hmod]
        simpa [List.length_eq_zero] using hbuf
      rw [if_neg hbuf, if_neg hz]
      simp
  · intro c hc
    rw [hclose, hfc] at hc
    by_cases hbuf : getBuf (runItems p sp items []).1 d0 = []
    · rw [if_pos hbuf] at hc
      simp at hc
    · rw [if_neg hbuf, List.mem_singleton] at hc
      rw [hc]
      exact hmod.symm
  · have hpipe : (pipelineRun p sp items).2
        = (runItems p sp items []).2 ++ flushedCalls (runItems p sp items []).1 := by
      simp [pipelineRun, closeSpider_true_eq]
    rw [hpipe, List.length_append, hfc,
      ← div_add_remainder_ceil items.length p.batch_size hbs, hdiv]
    by_cases hbuf : getBuf (runItems p sp items []).1 d0 = []
    · have hz : items.length % p.batch_size = 0 := by
        rw [hmod, hbuf]
        rfl
      rw [if_pos hbuf, hz]
      simp
    · have hz : items.length % p.batch_size ≠ 0 := by
        rw [hmod]
        simpa [List.length_eq_zero] using hbuf
      rw [if_neg hbuf, if_neg hz]
      simp

/-- C5 (witness): the spec's scenario — 120 records, `batch_size = 50`,
all resolving to `(demo, quotes)`: two 50-record loads during submission
and one 20-record load at shutdown, three in total. -/
theorem load_call_count_is_ceil_witness :
    (runItems sampleConfig plainSpider items120 []).2.length
        = items120.length / sampleConfig.batch_size
    ∧ (∀ c ∈ (runItems sampleConfig plainSpider items120 []).2,
        c.records.length = sampleConfig.batch_size)
    ∧ (closeSpider (fun _ => true)
        (runItems sampleConfig plainSpider items120 []).1).2.1.length
        = (if items120.length % sampleConfig.batch_size = 0 then 0 else 1)
    ∧ (∀ c ∈ (closeSpider (fun _ => true)
        (runItems sampleConfig plainSpider items120 []).1).2.1,
        c.records.length = items120.length % sampleConfig.batch_size)
    ∧ (pipelineRun sampleConfig plainSpider items120).2.length
        = (items120.length + sampleConfig.batch_size - 1) / sampleConfig.batch_size :=
  load_call_count_is_ceil sampleConfig plainSpider items120 dW (by decide) (by decide)

/-- C10 (witness): the frame statement at a concrete state. -/
theorem buffer_ops_frame_witness :
    getBuf (processItem sampleConfig plainSpider sampleRecord true bufW).1 ("demo", "other")
      = getBuf bufW ("demo", "other")
    ∧ getBuf (flushStep ("demo", "quotes") true bufW).1 ("demo", "other")
      = getBuf bufW ("demo", "other") :=
  buffer_ops_frame sampleConfig plainSpider sampleRecord true bufW ("demo", "quotes")
    ("demo", "other") rfl (by decide)

end Onlyupou
